import Mathlib

/-!
Verification of the impala-go driver core against its specification.

Shallow embedding of the repository's Go source:
* `Sasl` — the SASL transport (`TSaslTransport` in `sasl/transport.go`):
  negotiation handshake, framed `Read`/`Write`/`Flush`, `AuthError`, and the
  PLAIN mechanism (`internal/sasl/plain.go`).
* `Hive` — the operation lifecycle (`internal/hive/operation.go`):
  `WaitToFinish` backoff polling, and the `ResultSet` cursor with its
  columnar decoding (`value`, `isSet`, `length`, `Next`).

Go machine values are embedded as follows: bytes are `Nat` (values kept
below 256 by construction in the wire encoders), Go `int`/`int64` and
`time.Duration` are `Int` or `Nat` as appropriate, errors are the inductive
`GoErr` (wrapping chains model `fmt.Errorf` with a cause and the `Unwrap`
method), fallible Go code returns `Except GoErr`, loops that depend on
external responses take explicit fuel and return `none` when the fuel runs
out (the Go loop would still be running).
-/

/-- Model of a Go `error` value as produced by this repository: a chain of
wrapped causes. `authErr` is `sasl.AuthError` (fields `username` and
`transportError`); `wrapped` is `fmt.Errorf("... %w", cause)`; `transport`
is a `thrift.TTransportException` carrying its `TypeId`; `badStatus` is the
formatted negotiation error `"sasl: negotiation failed. bad status: %d"`;
`ctxCanceled` is `context.Canceled`; `eof` is `io.EOF`; `panicked` marks a
Go runtime panic (nil dereference / index out of range); `parseFailed` is
the error returned by `time.Parse` on a malformed input. -/
inductive GoErr where
  | transport (typeId : ℕ)
  | authErr (username : String) (cause : GoErr)
  | wrapped (pre : String) (cause : GoErr)
  | badStatus (status : ℕ)
  | unexpectedChallenge
  | ctxCanceled
  | eof
  | panicked
  | parseFailed (s : String)
  | other (msg : String)
deriving DecidableEq, Repr

deriving instance DecidableEq for Except

/-- The `Error()` message of a modelled Go error. `wrapped` renders as the
message followed by the cause, matching `fmt.Errorf` with a trailing `%w`. -/
def GoErr.message : GoErr → String
  | .transport t => "transport error " ++ Nat.repr t
  | .authErr u _ => "authentication failed for user " ++ u
  | .wrapped p c => p ++ c.message
  | .badStatus s => "sasl: negotiation failed. bad status: " ++ Nat.repr s
  | .unexpectedChallenge => "sasl: unexpected server challenge"
  | .ctxCanceled => "context canceled"
  | .eof => "EOF"
  | .panicked => "runtime panic"
  | .parseFailed s => "parsing time " ++ s ++ " failed"
  | .other m => m

/-- The `Unwrap()` step of a modelled Go error: `AuthError.Unwrap` returns
its `transportError` field; an `fmt.Errorf`-wrapped error unwraps to its
`%w` cause; other errors do not unwrap. -/
def GoErr.unwrapErr : GoErr → Option GoErr
  | .authErr _ c => some c
  | .wrapped _ c => some c
  | _ => none

/-- `errors.As(err, &thrift.TTransportException)`: walk the unwrap chain
and return the `TypeId` of the first transport exception found. -/
def GoErr.asTransportErr : GoErr → Option ℕ
  | .transport t => some t
  | .authErr _ c => c.asTransportErr
  | .wrapped _ c => c.asTransportErr
  | _ => none

/-- `errors.As(err, &sasl.AuthError)`: walk the unwrap chain and return the
`(username, transportError)` fields of the first `AuthError` found. -/
def GoErr.asAuthErr : GoErr → Option (String × GoErr)
  | .authErr u c => some (u, c)
  | .wrapped _ c => c.asAuthErr
  | _ => none

/-- `thrift.END_OF_FILE`, the `TTransportException` type id for end of
stream. -/
def endOfFileId : ℕ := 4

namespace Sasl

/-- `sasl.Options`: the credentials handed to the PLAIN mechanism. -/
structure Options where
  username : String
  password : String
deriving DecidableEq, Repr

/-- Modelled from the spec: the mechanism-name constant `MechPlain` is
declared in a source file that is not part of the provided sources; the
spec fixes the mechanism token to `"PLAIN"`. -/
def MechPlain : String := "PLAIN"

/-- `plain.Start` (`internal/sasl/plain.go`): returns the mechanism name,
the initial response `username \x00 username \x00 password`, the
single-round-trip flag `true`, and no error. -/
def plainStart (o : Options) : String × String × Bool × Option GoErr :=
  (MechPlain, o.username ++ "\x00" ++ o.username ++ "\x00" ++ o.password, true, none)

/-- `plain.Step` (`internal/sasl/plain.go`): PLAIN never expects a server
challenge; any call fails with `ErrUnexpectedServerChallenge`. -/
def plainStep (_challenge : List ℕ) : List ℕ × Bool × Option GoErr :=
  ([], false, some .unexpectedChallenge)

/-- `plain.InterpretReceiveEOF` (`internal/sasl/plain.go`): turn an
end-of-stream transport error into an `AuthError` carrying the attempted
username and the original error as its cause. -/
def interpretReceiveEOF (o : Options) (e : GoErr) : GoErr :=
  .authErr o.username e

/-- Model of the underlying `thrift.TTransport` below the SASL layer during
negotiation: `readData` are the bytes the server side has made available,
`readErr` is the error the transport reports once `readData` cannot serve a
read (for a dropped connection this is a `TTransportException` with type id
`thrift.END_OF_FILE`), `written` accumulates the bytes this client wrote.
Writes and flushes on the model transport succeed. -/
structure TransState where
  readData : List ℕ
  readErr : GoErr
  written : List ℕ
deriving DecidableEq, Repr

/-- A read of `n` bytes from the underlying transport: serves the first `n`
available bytes, or reports the transport's error when fewer than `n` bytes
will ever arrive. -/
def transRead (st : TransState) (n : ℕ) : Except GoErr (List ℕ × TransState) :=
  if n ≤ st.readData.length then
    .ok (st.readData.take n, { st with readData := st.readData.drop n })
  else
    .error st.readErr

/-- The 4-byte big-endian length prefix written by `negotiationSend` and
`Flush`: `byte(v>>24), byte(v>>16), byte(v>>8), byte(v)`. -/
def encLen (v : ℕ) : List ℕ :=
  [v / 2 ^ 24 % 256, v / 2 ^ 16 % 256, v / 2 ^ 8 % 256, v % 256]

/-- `binary.BigEndian.Uint32` over a 4-byte header (`readFrame`). -/
def decLen (b : List ℕ) : ℕ :=
  ((b.getD 0 0 * 256 + b.getD 1 0) * 256 + b.getD 2 0) * 256 + b.getD 3 0

/-- SASL negotiation statuses (`transport.go`): START=1, OK=2, BAD=3,
ERROR=4, COMPLETE=5. -/
def statusStart : ℕ := 1
def statusOK : ℕ := 2
def statusBad : ℕ := 3
def statusErrorVal : ℕ := 4
def statusComplete : ℕ := 5

/-- `TSaslTransport.negotiationSend`: write one negotiation message —
1-byte status, 4-byte big-endian length, then the body — and flush. -/
def negotiationSend (st : TransState) (status : ℕ) (body : List ℕ) : TransState :=
  { st with written := st.written ++ [status] ++ encLen body.length ++ body }

/-- `TSaslTransport.receive`: read a 5-byte header from the underlying
transport and return `(Status(header[0]), header[1:])` — note the source
returns the four length bytes `header[1:]` as the challenge and never reads
the advertised payload. On a read error whose chain holds a
`TTransportException` with type id `END_OF_FILE`, the error is replaced by
`sasl.InterpretReceiveEOF`; other read errors propagate unchanged. -/
def receive (o : Options) (st : TransState) :
    Except GoErr (ℕ × List ℕ × TransState) :=
  match transRead st 5 with
  | .error e =>
    if e.asTransportErr = some endOfFileId then
      .error (interpretReceiveEOF o e)
    else
      .error e
  | .ok (header, st') => .ok (header.headD 0, header.drop 1, st')

/-- ASCII model of Go's `[]byte(s)` conversion used for negotiation
bodies. -/
def strBytes (s : String) : List ℕ := s.toList.map Char.toNat

/-- The receive loop of `TSaslTransport.Open` (the `for` loop after the
START and initial-response sends), with explicit fuel: each iteration calls
`receive`, fails on a status outside {OK, COMPLETE} with the raw status in
the message, stops on COMPLETE, and on OK hands the received challenge to
the mechanism's Step and sends the response as a new OK message. `none`
means the fuel ran out before the loop terminated. -/
def negotiate (o : Options) : TransState → ℕ → Option (Except GoErr TransState)
  | _, 0 => none
  | st, fuel + 1 =>
    match receive o st with
    | .error e => some (.error (.wrapped "sasl: negotiation failed. " e))
    | .ok (status, challenge, st') =>
      if status ≠ statusOK ∧ status ≠ statusComplete then
        some (.error (.badStatus status))
      else if status = statusComplete then
        some (.ok st')
      else
        match plainStep challenge with
        | (_, _, some e) => some (.error (.wrapped "sasl: negotiation failed. " e))
        | (payload, _, none) =>
          negotiate o (negotiationSend st' statusOK payload) fuel

/-- `TSaslTransport.Open` for the PLAIN mechanism, starting from an already
open underlying transport: ask the mechanism to start, send a START message
holding the mechanism name and an OK message holding the initial response,
then run the receive loop. -/
def Open (o : Options) (st : TransState) (fuel : ℕ) :
    Option (Except GoErr TransState) :=
  match plainStart o with
  | (_, _, _, some e) => some (.error e)
  | (mech, initial, _, none) =>
    let st1 := negotiationSend st statusStart (strBytes mech)
    let st2 := negotiationSend st1 statusOK (strBytes initial)
    negotiate o st2 fuel

/-- State of `TSaslTransport` in framed passthrough mode after a
successful handshake: the buffered read frame `rbuf` (a `bytes.Buffer`),
the outbound buffer `wbuf`, the bytes still to be read from the underlying
transport `transIn`, and the bytes already written to it `transOut`. -/
structure SaslBuf where
  rbuf : List ℕ
  wbuf : List ℕ
  transIn : List ℕ
  transOut : List ℕ
deriving DecidableEq, Repr

/-- `TSaslTransport.Write`: append to the outbound buffer; nothing reaches
the wire until `Flush`. -/
def Write (st : SaslBuf) (buf : List ℕ) : SaslBuf :=
  { st with wbuf := st.wbuf ++ buf }

/-- `TSaslTransport.Flush`: drain the outbound buffer and write it to the
underlying transport as one frame — a 4-byte big-endian length prefix
followed by the buffered bytes — then reset the buffer. -/
def Flush (st : SaslBuf) : SaslBuf :=
  { st with
    transOut := st.transOut ++ encLen st.wbuf.length ++ st.wbuf
    wbuf := [] }

/-- `TSaslTransport.readFrame`: read a 4-byte header from the underlying
transport, decode the big-endian length, read exactly that many body bytes
(`io.ReadFull`), make the body the new read buffer, and serve the caller's
read from it. Failure to obtain the header or the full body surfaces the
transport's end-of-stream error. -/
def readFrame (st : SaslBuf) (n : ℕ) : Except GoErr (List ℕ × SaslBuf) :=
  if 4 ≤ st.transIn.length then
    let l := decLen (st.transIn.take 4)
    let rest := st.transIn.drop 4
    if l ≤ rest.length then
      let body := rest.take l
      .ok (body.take n,
        { st with rbuf := body.drop n, transIn := rest.drop l })
    else
      .error .eof
  else
    .error .eof

/-- `TSaslTransport.Read`: serve from the buffered frame; when the buffer
is exhausted (`bytes.Buffer.Read` reports `io.EOF` for a non-empty
destination), block to unpack the next frame via `readFrame`. -/
def Read (st : SaslBuf) (n : ℕ) : Except GoErr (List ℕ × SaslBuf) :=
  if st.rbuf = [] ∧ n ≠ 0 then
    readFrame st n
  else
    .ok (st.rbuf.take n, { st with rbuf := st.rbuf.drop n })

/-- A sequence of `Read` calls with the given (caller-chosen) buffer
sizes, concatenating everything read. -/
def readSeq : List ℕ → SaslBuf → Except GoErr (List ℕ × SaslBuf)
  | [], st => .ok ([], st)
  | n :: rest, st =>
    match Read st n with
    | .error e => .error e
    | .ok (out, st') =>
      match readSeq rest st' with
      | .error e => .error e
      | .ok (outs, st'') => .ok (out ++ outs, st'')

theorem encLen_length (v : ℕ) : (encLen v).length = 4 := rfl

theorem decLen_encLen (v : ℕ) (h : v < 2 ^ 32) : decLen (encLen v) = v := by
  show ((v / 2 ^ 24 % 256 * 256 + v / 2 ^ 16 % 256) * 256 + v / 2 ^ 8 % 256) * 256
      + v % 256 = v
  omega

theorem take_encLen_append (v : ℕ) (bs : List ℕ) :
    (encLen v ++ bs).take 4 = encLen v := by
  rw [← encLen_length v]
  exact List.take_left _ _

theorem drop_encLen_append (v : ℕ) (bs : List ℕ) :
    (encLen v ++ bs).drop 4 = bs := by
  rw [← encLen_length v]
  exact List.drop_left _ _

/-- Draining an already-buffered frame with any sequence of positive read
sizes summing to the buffered length returns exactly the buffered bytes. -/
theorem readSeq_drain (sizes : List ℕ) :
    ∀ (buf wb tIn tOut : List ℕ), (∀ s ∈ sizes, 0 < s) →
      sizes.sum = buf.length →
      ∃ st', readSeq sizes ⟨buf, wb, tIn, tOut⟩ = .ok (buf, st') := by
  induction sizes with
  | nil =>
    intro buf wb tIn tOut _ hsum
    have hbuf : buf = [] := by
      have : buf.length = 0 := by simpa using hsum.symm
      exact List.length_eq_zero.mp this
    subst hbuf
    exact ⟨_, rfl⟩
  | cons n rest ih =>
    intro buf wb tIn tOut hpos hsum
    have hn : 0 < n := hpos n (by simp)
    have hlen : n + rest.sum = buf.length := by simpa using hsum
    have hbuf : buf ≠ [] := List.ne_nil_of_length_pos (by omega)
    have hread : Read ⟨buf, wb, tIn, tOut⟩ n =
        .ok (buf.take n, ⟨buf.drop n, wb, tIn, tOut⟩) := by
      rw [Read]
      rw [if_neg]
      simp [hbuf]
    obtain ⟨st', hrec⟩ := ih (buf.drop n) wb tIn tOut
      (fun s hs => hpos s (by simp [hs]))
      (by simp [List.length_drop]; omega)
    refine ⟨st', ?_⟩
    simp only [readSeq, hread, hrec, List.take_append_drop]

end Sasl

/-- Claim C4: flushing a buffer holding the `N`-byte payload `bs` emits
exactly one frame of `4 + N` bytes on the underlying transport — the
4-byte big-endian encoding of `N` followed by `bs` — and reading that
frame back through `Read` returns exactly `bs`, for every split of the
reads into positive sizes draining the frame. -/
theorem C4_flush_read_roundtrip (bs sizes : List ℕ) (hlen : bs.length < 2 ^ 32)
    (hpos : ∀ s ∈ sizes, 0 < s) (hsum : sizes.sum = bs.length) :
    (Sasl.Flush (Sasl.Write ⟨[], [], [], []⟩ bs)).transOut =
      Sasl.encLen bs.length ++ bs ∧
    (Sasl.encLen bs.length ++ bs).length = 4 + bs.length ∧
    ∃ st', Sasl.readSeq sizes ⟨[], [], Sasl.encLen bs.length ++ bs, []⟩ =
      .ok (bs, st') := by
  refine ⟨by simp [Sasl.Write, Sasl.Flush], by simp [Sasl.encLen_length], ?_⟩
  rcases sizes with _ | ⟨n, rest⟩
  · have hbs : bs = [] := by
      have : bs.length = 0 := by simpa using hsum.symm
      exact List.length_eq_zero.mp this
    subst hbs
    exact ⟨_, rfl⟩
  · have hn : 0 < n := hpos n (by simp)
    have hsum' : n + rest.sum = bs.length := by simpa using hsum
    have hread : Sasl.Read ⟨[], [], Sasl.encLen bs.length ++ bs, []⟩ n =
        .ok (bs.take n, ⟨bs.drop n, [], [], []⟩) := by
      rw [Sasl.Read, if_pos ⟨rfl, by omega⟩, Sasl.readFrame]
      rw [if_pos (by simp [Sasl.encLen_length])]
      simp only [Sasl.take_encLen_append, Sasl.drop_encLen_append,
        Sasl.decLen_encLen bs.length hlen]
      rw [if_pos (le_refl _)]
      simp [List.take_length, List.drop_length]
    obtain ⟨st', hrec⟩ := Sasl.readSeq_drain rest (bs.drop n) [] [] []
      (fun s hs => hpos s (by simp [hs]))
      (by simp [List.length_drop]; omega)
    refine ⟨st', ?_⟩
    simp only [Sasl.readSeq, hread, hrec, List.take_append_drop]

/-- Witness for C4: payload `[10, 20, 30]` read back as two reads of sizes
2 and 1. -/
theorem C4_flush_read_roundtrip_witness :
    (([10, 20, 30] : List ℕ).length < 2 ^ 32 ∧
      (∀ s ∈ ([2, 1] : List ℕ), 0 < s) ∧ ([2, 1] : List ℕ).sum = 3) ∧
    ((Sasl.Flush (Sasl.Write ⟨[], [], [], []⟩ [10, 20, 30])).transOut =
        Sasl.encLen 3 ++ [10, 20, 30] ∧
      ∃ st', Sasl.readSeq [2, 1] ⟨[], [], Sasl.encLen 3 ++ [10, 20, 30], []⟩ =
        .ok ([10, 20, 30], st')) := by
  have h := C4_flush_read_roundtrip [10, 20, 30] [2, 1] (by decide)
    (by decide) (by decide)
  exact ⟨⟨by decide, by decide, by decide⟩, h.1, h.2.2⟩

/-- Claim C1 (code bug, evaluated at the failing input): the spec requires
each negotiation message to be received as a 1-byte status, a 4-byte
big-endian length, and then exactly that many payload bytes, with the
payload handed to Step on OK. On the stream
`[2, 0,0,0,3, 97,98,99]` — an OK message advertising a 3-byte payload
`"abc"` — the source's `receive` consumes only the 5 header bytes and
returns the four length bytes `[0,0,0,3]` as the challenge, leaving the
payload `[97,98,99]` unread in the stream. The status validation half of
the claim does hold: a status outside {OK, COMPLETE} fails the loop with
the raw status value in the message. -/
theorem C1_receive_reads_header_only :
    Sasl.receive ⟨"alice", "secret"⟩
        ⟨[2, 0, 0, 0, 3, 97, 98, 99], .transport 4, []⟩ =
      .ok (2, [0, 0, 0, 3], ⟨[97, 98, 99], .transport 4, []⟩) ∧
    ([0, 0, 0, 3] : List ℕ) ≠ [97, 98, 99] ∧
    Sasl.negotiate ⟨"alice", "secret"⟩ ⟨[3, 0, 0, 0, 0], .transport 4, []⟩ 3 =
      some (.error (.badStatus 3)) ∧
    GoErr.message (.badStatus 3) = "sasl: negotiation failed. bad status: 3" := by
  refine ⟨rfl, by decide, rfl, rfl⟩

/-- Claim C8: whenever a negotiation receive hits an underlying transport
error whose chain is a `TTransportException` with type id `END_OF_FILE`
(the transport reports end of stream), `Open` fails with an error wrapping
an `AuthError` that carries the attempted username in its message and the
original transport error as its cause (`Unwrap` returns it, and
`errors.As` can recover it from `Open`'s returned chain). Stated for a
transport whose stream is exhausted at the first receive of the loop; the
loop re-enters the same receive for every later round, so the same
computation covers every negotiation receive. -/
theorem C8_eof_becomes_auth_error (o : Sasl.Options) (st : Sasl.TransState)
    (fuel : ℕ) (h5 : st.readData.length < 5)
    (heof : st.readErr.asTransportErr = some endOfFileId) :
    Sasl.Open o st (fuel + 1) =
      some (.error (.wrapped "sasl: negotiation failed. "
        (.authErr o.username st.readErr))) ∧
    GoErr.unwrapErr (.authErr o.username st.readErr) = some st.readErr ∧
    GoErr.message (.authErr o.username st.readErr) =
      "authentication failed for user " ++ o.username ∧
    GoErr.asAuthErr (.wrapped "sasl: negotiation failed. "
        (.authErr o.username st.readErr)) = some (o.username, st.readErr) := by
  refine ⟨?_, rfl, rfl, rfl⟩
  have hlt : ¬ 5 ≤ st.readData.length := by omega
  simp only [Sasl.Open, Sasl.plainStart, Sasl.negotiate, Sasl.receive,
    Sasl.transRead, Sasl.negotiationSend, hlt, if_false, heof, if_pos,
    Sasl.interpretReceiveEOF]

/-- Witness for C8 at a concrete input: empty stream, transport error of
type `END_OF_FILE`, user `alice`. -/
theorem C8_eof_becomes_auth_error_witness :
    (([] : List ℕ).length < 5 ∧
      (GoErr.transport 4).asTransportErr = some endOfFileId) ∧
    Sasl.Open ⟨"alice", "pw"⟩ ⟨[], .transport 4, []⟩ 1 =
      some (.error (.wrapped "sasl: negotiation failed. "
        (.authErr "alice" (.transport 4)))) := by
  refine ⟨⟨by decide, rfl⟩, ?_⟩
  exact (C8_eof_becomes_auth_error ⟨"alice", "pw"⟩ ⟨[], .transport 4, []⟩ 0
    (by decide) rfl).1

/-- Claim C9: for every Options value with username u and password p, the
PLAIN mechanism's Start returns the mechanism token "PLAIN", the initial
response u ++ "\x00" ++ u ++ "\x00" ++ p (authzid equal to the username),
a true single-round-trip flag, and no error. -/
theorem C9_plain_start (o : Sasl.Options) :
    Sasl.plainStart o =
      ("PLAIN", o.username ++ "\x00" ++ o.username ++ "\x00" ++ o.password,
        true, (none : Option GoErr)) := by
  rfl

namespace Hive

/-- Opaque carrier for a Go `float64`: the decoder moves doubles verbatim
(no arithmetic, no narrowing), so only the 64-bit pattern matters. -/
structure Float64 where
  bits : ℕ
deriving DecidableEq, Repr

/-- One typed column vector of a `cli_service.TRowSet` (for example
`TBoolColumn`): the scalar values plus the parallel null bitmap, one bit
per row packed 8 rows per byte. -/
structure TColumnVec (α : Type) where
  values : List α
  nulls : List ℕ
deriving DecidableEq, Repr

/-- `cli_service.TColumn`: at most one of the typed vectors is populated;
a `none` field is a nil pointer in Go. -/
structure TColumn where
  boolVal : Option (TColumnVec Bool) := none
  byteVal : Option (TColumnVec ℤ) := none
  i16Val : Option (TColumnVec ℤ) := none
  i32Val : Option (TColumnVec ℤ) := none
  i64Val : Option (TColumnVec ℤ) := none
  stringVal : Option (TColumnVec String) := none
  doubleVal : Option (TColumnVec Float64) := none
deriving DecidableEq, Repr

/-- `cli_service.TRowSet`, restricted to the `Columns` field — the only
field the decoder reads. -/
structure TRowSet where
  columns : List TColumn
deriving DecidableEq, Repr

/-- `hive.ColDesc`, restricted to the fields the decoder reads (the schema
also carries a scan type and length/precision/scale qualifiers, unused by
`value`). -/
structure ColDesc where
  name : String
  databaseTypeName : String
deriving DecidableEq, Repr

/-- A decoded `driver.Value` produced by `value`: `null` is a Go `nil`,
`timestamp` is the `time.Time` parsed from the server's text (we keep the
validated text). -/
inductive GoVal where
  | null
  | str (s : String)
  | i8 (v : ℤ)
  | i16 (v : ℤ)
  | i32 (v : ℤ)
  | i64 (v : ℤ)
  | bool (b : Bool)
  | double (d : Float64)
  | timestamp (s : String)
deriving DecidableEq, Repr

/-- Go field access through a possibly-nil pointer: dereferencing nil
panics. -/
def deref (o : Option α) : Except GoErr α :=
  match o with
  | some v => .ok v
  | none => .error .panicked

/-- Go slice indexing `l[i]`: out of range panics. -/
def goIndex (l : List α) (i : ℕ) : Except GoErr α :=
  match l.get? i with
  | some v => .ok v
  | none => .error .panicked

/-- `hive.isSet` (`internal/hive/result_set.go`):
`bitmap[i/8] & (1 << (uint(i) % 8)) != 0`, with the Go indexing panic when
the bitmap is too short. -/
def isSet (bitmap : List ℕ) (i : ℕ) : Except GoErr Bool :=
  (goIndex bitmap (i / 8)).map fun b => decide (b &&& (1 <<< (i % 8)) ≠ 0)

/-- The spec's description of the null bitmap, written independently of
`isSet` for comparison: bit `i % 8` of byte `i / 8` is set. -/
def specNullBit (bitmap : List ℕ) (i : ℕ) : Bool :=
  bitmap.getD (i / 8) 0 / 2 ^ (i % 8) % 2 = 1

/-- Modelled from the spec: the constant `TimestampFormat` and Go's
`time.Parse` live outside the provided sources; the spec fixes the layout
to `yyyy-MM-dd HH:mm:ss.SSSSSSSSS` with the fractional part produced by the
server as text. This validator checks the fixed date-time skeleton
`digits 0-3 '-' digits 5-6 '-' digits 8-9 ' ' digits 11-12 ':'
digits 14-15 ':' digits 17-18` of that layout. -/
def validTimestamp (s : String) : Bool :=
  let cs := s.toList
  decide (19 ≤ cs.length) &&
    ([0, 1, 2, 3, 5, 6, 8, 9, 11, 12, 14, 15, 17, 18].all
      fun i => (cs.getD i ' ').isDigit) &&
    (cs.getD 4 ' ' == '-') && (cs.getD 7 ' ' == '-') &&
    (cs.getD 10 '-' == ' ') && (cs.getD 13 ' ' == ':') &&
    (cs.getD 16 ' ' == ':')

/-- Modelled from the spec: `time.Parse(TimestampFormat, s)` — succeeds on
a string matching the timestamp layout, returning the parsed time, and
fails otherwise. -/
def timeParse (s : String) : Except GoErr GoVal :=
  if validTimestamp s then .ok (.timestamp s) else .error (.parseFailed s)

/-- The decoding pattern each arm of `value` repeats verbatim in the
source: check the null bit in `col.XVal.Nulls` (nil vector panics), return
Go `nil` for a set bit without touching the values slice, otherwise return
`col.XVal.Values[i]` under the given constructor. -/
def decodeVec (o : Option (TColumnVec α)) (i : ℕ) (mk : α → GoVal) :
    Except GoErr GoVal := do
  let v ← deref o
  if ← isSet v.nulls i then
    pure .null
  else do
    let x ← goIndex v.values i
    pure (mk x)

/-- The TIMESTAMP/DATETIME arm of `value`: same null handling as the
other arms over the string vector, with the scalar passed through
`time.Parse` before being returned. -/
def decodeTs (o : Option (TColumnVec String)) (i : ℕ) : Except GoErr GoVal := do
  let v ← deref o
  if ← isSet v.nulls i then
    pure .null
  else do
    let s ← goIndex v.values i
    timeParse s

/-- `hive.value` (`internal/hive/result_set.go`): choose the typed vector
from the column's declared database type name and decode row `i`.
STRING/CHAR/VARCHAR and any unrecognized name read the string vector;
TINYINT the byte vector; SMALLINT/INT/BIGINT the 16/32/64-bit vectors;
BOOLEAN the bool vector; FLOAT/DOUBLE the 64-bit float vector returned
as-is; TIMESTAMP/DATETIME read the string vector and parse it. -/
def value (col : TColumn) (cd : ColDesc) (i : ℕ) : Except GoErr GoVal :=
  match cd.databaseTypeName with
  | "STRING" | "CHAR" | "VARCHAR" => decodeVec col.stringVal i .str
  | "TINYINT" => decodeVec col.byteVal i .i8
  | "SMALLINT" => decodeVec col.i16Val i .i16
  | "INT" => decodeVec col.i32Val i .i32
  | "BIGINT" => decodeVec col.i64Val i .i64
  | "BOOLEAN" => decodeVec col.boolVal i .bool
  | "FLOAT" | "DOUBLE" => decodeVec col.doubleVal i .double
  | "TIMESTAMP" | "DATETIME" => decodeTs col.stringVal i
  | _ => decodeVec col.stringVal i .str

/-- The per-column probe inside `hive.length`: the first populated vector
of the column determines the length; the source checks, in order, BoolVal,
ByteVal, I16Val, I32Val, I32Val again (benign redundancy kept from the
source), I64Val, StringVal, DoubleVal. -/
def colLength (col : TColumn) : Option ℕ :=
  match col.boolVal with
  | some v => some v.values.length
  | none =>
  match col.byteVal with
  | some v => some v.values.length
  | none =>
  match col.i16Val with
  | some v => some v.values.length
  | none =>
  match col.i32Val with
  | some v => some v.values.length
  | none =>
  match col.i32Val with
  | some v => some v.values.length
  | none =>
  match col.i64Val with
  | some v => some v.values.length
  | none =>
  match col.stringVal with
  | some v => some v.values.length
  | none =>
  match col.doubleVal with
  | some v => some v.values.length
  | none => none

/-- The `for` loop of `hive.length` over the columns. -/
def lengthLoop : List TColumn → ℕ
  | [] => 0
  | col :: rest =>
    match colLength col with
    | some n => n
    | none => lengthLoop rest

/-- `hive.length` (`internal/hive/result_set.go`): a nil row set has
length 0; otherwise the first column with a populated vector reports its
value count; a batch with no populated vector has length 0. -/
def length (rs : Option TRowSet) : ℕ :=
  match rs with
  | none => 0
  | some r => lengthLoop r.columns

/-- `cli_service.TFetchResultsResp`, restricted to the fields the cursor
reads: the row set and the `GetHasMoreRows()` getter (thrift default
`false` when unset). -/
structure TFetchResultsResp where
  results : Option TRowSet
  hasMoreRows : Bool
deriving DecidableEq, Repr

/-- The environment behind the cursor's fetch closure `rs.fetchfn`:
`fetches k` is the outcome of the `k`-th call into `Operation.fetch`. -/
structure FetchEnv where
  fetches : ℕ → Except GoErr TFetchResultsResp

/-- `hive.ResultSet` cursor state. `fetchCount` counts the calls already
made through the fetch closure (it stands in for the closure's position in
the response stream); the remaining fields are the source's `idx`,
`length`, `result`, `more` and `schema` (the schema reduced to its column
descriptors). -/
structure ResultSet where
  idx : ℕ
  length : ℕ
  fetchCount : ℕ
  result : Option TRowSet
  more : Bool
  schema : List ColDesc
deriving DecidableEq, Repr

/-- The fetch loop at the top of `ResultSet.Next`:
`for rs.idx >= rs.length && rs.more`, fetch the next response, install its
row set, reset `idx`, recompute `length`, and record `hasMoreRows`; a
fetch error returns immediately. Fuel bounds the number of fetches; `none`
means the loop was still fetching when the fuel ran out. -/
def fetchLoop (env : FetchEnv) : ℕ → ResultSet → Option (Option GoErr × ResultSet)
  | 0, rs =>
    if rs.length ≤ rs.idx ∧ rs.more = true then none
    else some (none, rs)
  | fuel + 1, rs =>
    if rs.length ≤ rs.idx ∧ rs.more = true then
      match env.fetches rs.fetchCount with
      | .error e => some (some e, rs)
      | .ok resp =>
        fetchLoop env fuel
          { rs with
            result := resp.results
            more := resp.hasMoreRows
            idx := 0
            length := Hive.length resp.results
            fetchCount := rs.fetchCount + 1 }
    else some (none, rs)

/-- The decode loop of `ResultSet.Next` over the destination indices
`i`, `i+1`, ... (`count` cells remain): each step reads
`value(rs.result.Columns[i], rs.schema.Columns[i], rs.idx)` and stops at
the first error. -/
def decodeCells (rs : ResultSet) : ℕ → ℕ → Except GoErr (List GoVal)
  | 0, _ => .ok []
  | count + 1, i => do
    let r ← deref rs.result
    let col ← goIndex r.columns i
    let cd ← goIndex rs.schema i
    let v ← value col cd rs.idx
    let rest ← decodeCells rs count (i + 1)
    pure (v :: rest)

/-- The full decode of one row into a destination of `n` columns
(`for i := range dest` in the source). -/
def decodeRow (rs : ResultSet) (n : ℕ) : Except GoErr (List GoVal) :=
  decodeCells rs n 0

/-- `hive.ResultSet.Next` for a destination of `n` columns: run the fetch
loop; if the batch is still exhausted afterwards return `io.EOF`; else
decode the current row (an error leaves the cursor untouched) and advance
`idx`. Returns the decoded row (the `dest` contents) and the new cursor
state; `none` when the fetch-loop fuel ran out. -/
def Next (env : FetchEnv) (rs : ResultSet) (n : ℕ) (fuel : ℕ) :
    Option (Except GoErr (List GoVal) × ResultSet) :=
  match fetchLoop env fuel rs with
  | none => none
  | some (some e, rs1) => some (.error e, rs1)
  | some (none, rs1) =>
    if rs1.length ≤ rs1.idx then some (.error .eof, rs1)
    else
      match decodeRow rs1 n with
      | .error e => some (.error e, rs1)
      | .ok vals => some (.ok vals, { rs1 with idx := rs1.idx + 1 })

/-- `hive.initialBackoff = 100 * time.Millisecond`, in nanoseconds
(Go `time.Duration` is an int64 nanosecond count). -/
def initialBackoff : ℤ := 100000000

/-- `hive.maxBackoff = time.Second`, in nanoseconds. -/
def maxBackoff : ℤ := 1000000000

/-- `hive.nextDuration`: double the duration, clamping at `maxBackoff`. -/
def nextDuration (d : ℤ) : ℤ :=
  let d2 := d * 2
  if d2 > maxBackoff then maxBackoff else d2

/-- `cli_service.TOperationState_FINISHED_STATE`. -/
def finishedState : ℕ := 2

/-- The environment of one `WaitToFinish` call: `checks k` is the result
of the `k`-th `CheckStateAndStatus` RPC (state on success, error
otherwise; on error the returned state is the zero value), and `ctxErr k`
is what `ctx.Err()` reports right after that RPC. -/
structure WtfEnv where
  checks : ℕ → Except GoErr ℕ
  ctxErr : ℕ → Option GoErr

/-- The state component of a `CheckStateAndStatus` result (`0` on error,
as in the source's `return 0, err`). -/
def stOf : Except GoErr ℕ → ℕ
  | .ok s => s
  | .error _ => 0

/-- The error component of a `CheckStateAndStatus` result. -/
def errOf : Except GoErr ℕ → Option GoErr
  | .ok _ => none
  | .error e => some e

/-- `lo.CoalesceOrEmpty(err, ctx.Err())` (external `samber/lo`
collaborator): the first non-nil error, if any. -/
def coalesceErr (a b : Option GoErr) : Option GoErr :=
  match a with
  | some e => some e
  | none => b

/-- The polling loop of `Operation.WaitToFinish`:
`for err == nil && opState != FINISHED`, sleep for the current backoff
duration (recorded in `sleeps`), run the next status check, coalesce its
error with the context error, and double the backoff. `k` indexes the next
check; fuel bounds the iterations, `none` meaning the loop was still
polling. Returns the final `err` and the list of sleep durations. -/
def wtfLoop (env : WtfEnv) : ℕ → ℕ → ℤ → ℕ → Option GoErr → List ℤ →
    Option (Option GoErr × List ℤ)
  | 0, _, _, st, err, sleeps =>
    if err = none ∧ st ≠ finishedState then none else some (err, sleeps)
  | fuel + 1, k, dur, st, err, sleeps =>
    if err = none ∧ st ≠ finishedState then
      wtfLoop env fuel (k + 1) (nextDuration dur) (stOf (env.checks k))
        (coalesceErr (errOf (env.checks k)) (env.ctxErr k)) (sleeps ++ [dur])
    else some (err, sleeps)

/-- `Operation.WaitToFinish`: one status check up front — with no sleep
before it and, in the source, no context-error coalescing after it — then
the polling loop starting from `initialBackoff`. -/
def WaitToFinish (env : WtfEnv) (fuel : ℕ) : Option (Option GoErr × List ℤ) :=
  wtfLoop env fuel 1 initialBackoff (stOf (env.checks 0)) (errOf (env.checks 0)) []

end Hive

namespace Hive

theorem land_shift_eq_testBit (x k : ℕ) :
    decide (x &&& (1 <<< k) ≠ 0) = x.testBit k := by
  rw [Nat.shiftLeft_eq, one_mul, Nat.and_two_pow]
  rcases h : x.testBit k with _ | _
  · simp
  · simp [(Nat.two_pow_pos k).ne']

theorem specNullBit_eq_testBit (b : List ℕ) (i : ℕ) :
    specNullBit b i = (b.getD (i / 8) 0).testBit (i % 8) := by
  rw [specNullBit, Nat.testBit_to_div_mod]

theorem goIndex_eq_ok (l : List α) (i : ℕ) (h : i < l.length) :
    goIndex l i = .ok (l.get ⟨i, h⟩) := by
  rw [goIndex, List.get?_eq_get h]

/-- `isSet` agrees with the spec's reading of the null bitmap whenever the
bitmap covers the row. -/
theorem isSet_eq_specNullBit (b : List ℕ) (i : ℕ) (h : i / 8 < b.length) :
    isSet b i = .ok (specNullBit b i) := by
  rw [isSet, goIndex_eq_ok b (i / 8) h, specNullBit_eq_testBit]
  have hD : b.getD (i / 8) 0 = b.get ⟨i / 8, h⟩ := by
    rw [List.getD_eq_getElem b 0 h]
    simp
  rw [hD]
  show Except.ok (decide _) = _
  rw [land_shift_eq_testBit]

theorem decodeVec_null {α : Type} (vals : List α) (nulls : List ℕ) (i : ℕ)
    (mk : α → GoVal) (h : i / 8 < nulls.length)
    (hbit : specNullBit nulls i = true) :
    decodeVec (some ⟨vals, nulls⟩) i mk = .ok .null := by
  simp [decodeVec, deref, Bind.bind, Except.bind,
    isSet_eq_specNullBit nulls i h, hbit, pure, Except.pure]

theorem decodeVec_val {α : Type} (vals : List α) (nulls : List ℕ) (i : ℕ)
    (mk : α → GoVal) (h : i / 8 < nulls.length)
    (hbit : specNullBit nulls i = false) (hi : i < vals.length) :
    decodeVec (some ⟨vals, nulls⟩) i mk = .ok (mk (vals.get ⟨i, hi⟩)) := by
  simp [decodeVec, deref, Bind.bind, Except.bind,
    isSet_eq_specNullBit nulls i h, hbit, goIndex_eq_ok vals i hi,
    pure, Except.pure, Except.map]

end Hive

/-- Claim C6: for every column vector with null bitmap `b` and every row
index `i` covered by the bitmap, the row is treated as null exactly when
bit `i % 8` of byte `i / 8` of `b` is set (`isSet` agrees with the spec's
bit reading); in that case `value` yields Go `nil` without reading the
scalar at index `i` (no bound on the values slice is needed), otherwise it
yields the scalar at index `i` of the typed vector selected by the
column's database type name; and `Next` stores whatever `value` produced
for each column into the destination row. -/
theorem C6_null_bitmap_decoding (col : Hive.TColumn) (cd : Hive.ColDesc)
    (i : ℕ) (nulls : List ℕ) (h : i / 8 < nulls.length) :
    Hive.isSet nulls i = .ok (Hive.specNullBit nulls i) ∧
    (∀ vals : List String,
      cd.databaseTypeName = "STRING" ∨ cd.databaseTypeName = "CHAR" ∨
        cd.databaseTypeName = "VARCHAR" →
      col.stringVal = some ⟨vals, nulls⟩ →
      (Hive.specNullBit nulls i = true → Hive.value col cd i = .ok .null) ∧
      (Hive.specNullBit nulls i = false → ∀ hi : i < vals.length,
        Hive.value col cd i = .ok (.str (vals.get ⟨i, hi⟩)))) ∧
    (∀ vals : List ℤ, cd.databaseTypeName = "TINYINT" →
      col.byteVal = some ⟨vals, nulls⟩ →
      (Hive.specNullBit nulls i = true → Hive.value col cd i = .ok .null) ∧
      (Hive.specNullBit nulls i = false → ∀ hi : i < vals.length,
        Hive.value col cd i = .ok (.i8 (vals.get ⟨i, hi⟩)))) ∧
    (∀ vals : List ℤ, cd.databaseTypeName = "SMALLINT" →
      col.i16Val = some ⟨vals, nulls⟩ →
      (Hive.specNullBit nulls i = true → Hive.value col cd i = .ok .null) ∧
      (Hive.specNullBit nulls i = false → ∀ hi : i < vals.length,
        Hive.value col cd i = .ok (.i16 (vals.get ⟨i, hi⟩)))) ∧
    (∀ vals : List ℤ, cd.databaseTypeName = "INT" →
      col.i32Val = some ⟨vals, nulls⟩ →
      (Hive.specNullBit nulls i = true → Hive.value col cd i = .ok .null) ∧
      (Hive.specNullBit nulls i = false → ∀ hi : i < vals.length,
        Hive.value col cd i = .ok (.i32 (vals.get ⟨i, hi⟩)))) ∧
    (∀ vals : List ℤ, cd.databaseTypeName = "BIGINT" →
      col.i64Val = some ⟨vals, nulls⟩ →
      (Hive.specNullBit nulls i = true → Hive.value col cd i = .ok .null) ∧
      (Hive.specNullBit nulls i = false → ∀ hi : i < vals.length,
        Hive.value col cd i = .ok (.i64 (vals.get ⟨i, hi⟩)))) ∧
    (∀ vals : List Bool, cd.databaseTypeName = "BOOLEAN" →
      col.boolVal = some ⟨vals, nulls⟩ →
      (Hive.specNullBit nulls i = true → Hive.value col cd i = .ok .null) ∧
      (Hive.specNullBit nulls i = false → ∀ hi : i < vals.length,
        Hive.value col cd i = .ok (.bool (vals.get ⟨i, hi⟩)))) ∧
    (∀ vals : List Hive.Float64,
      cd.databaseTypeName = "FLOAT" ∨ cd.databaseTypeName = "DOUBLE" →
      col.doubleVal = some ⟨vals, nulls⟩ →
      (Hive.specNullBit nulls i = true → Hive.value col cd i = .ok .null) ∧
      (Hive.specNullBit nulls i = false → ∀ hi : i < vals.length,
        Hive.value col cd i = .ok (.double (vals.get ⟨i, hi⟩)))) ∧
    (∀ (env : Hive.FetchEnv) (rs : Hive.ResultSet) (n fuel : ℕ)
        (vals : List Hive.GoVal),
      rs.idx < rs.length → Hive.decodeRow rs n = .ok vals →
      Hive.Next env rs n fuel = some (.ok vals, { rs with idx := rs.idx + 1 })) := by
  refine ⟨Hive.isSet_eq_specNullBit nulls i h, ?_, ?_, ?_, ?_, ?_, ?_, ?_, ?_⟩
  · intro vals hname hcol
    have hv : Hive.value col cd i = Hive.decodeVec col.stringVal i .str := by
      rcases hname with h1 | h1 | h1 <;> simp [Hive.value, h1]
    rw [hv, hcol]
    exact ⟨fun hbit => Hive.decodeVec_null vals nulls i _ h hbit,
      fun hbit hi => Hive.decodeVec_val vals nulls i _ h hbit hi⟩
  · intro vals hname hcol
    have hv : Hive.value col cd i = Hive.decodeVec col.byteVal i .i8 := by
      simp [Hive.value, hname]
    rw [hv, hcol]
    exact ⟨fun hbit => Hive.decodeVec_null vals nulls i _ h hbit,
      fun hbit hi => Hive.decodeVec_val vals nulls i _ h hbit hi⟩
  · intro vals hname hcol
    have hv : Hive.value col cd i = Hive.decodeVec col.i16Val i .i16 := by
      simp [Hive.value, hname]
    rw [hv, hcol]
    exact ⟨fun hbit => Hive.decodeVec_null vals nulls i _ h hbit,
      fun hbit hi => Hive.decodeVec_val vals nulls i _ h hbit hi⟩
  · intro vals hname hcol
    have hv : Hive.value col cd i = Hive.decodeVec col.i32Val i .i32 := by
      simp [Hive.value, hname]
    rw [hv, hcol]
    exact ⟨fun hbit => Hive.decodeVec_null vals nulls i _ h hbit,
      fun hbit hi => Hive.decodeVec_val vals nulls i _ h hbit hi⟩
  · intro vals hname hcol
    have hv : Hive.value col cd i = Hive.decodeVec col.i64Val i .i64 := by
      simp [Hive.value, hname]
    rw [hv, hcol]
    exact ⟨fun hbit => Hive.decodeVec_null vals nulls i _ h hbit,
      fun hbit hi => Hive.decodeVec_val vals nulls i _ h hbit hi⟩
  · intro vals hname hcol
    have hv : Hive.value col cd i = Hive.decodeVec col.boolVal i .bool := by
      simp [Hive.value, hname]
    rw [hv, hcol]
    exact ⟨fun hbit => Hive.decodeVec_null vals nulls i _ h hbit,
      fun hbit hi => Hive.decodeVec_val vals nulls i _ h hbit hi⟩
  · intro vals hname hcol
    have hv : Hive.value col cd i = Hive.decodeVec col.doubleVal i .double := by
      rcases hname with h1 | h1 <;> simp [Hive.value, h1]
    rw [hv, hcol]
    exact ⟨fun hbit => Hive.decodeVec_null vals nulls i _ h hbit,
      fun hbit hi => Hive.decodeVec_val vals nulls i _ h hbit hi⟩
  · intro env rs n fuel vals hidx hdec
    have hcond : ¬ (rs.length ≤ rs.idx ∧ rs.more = true) := by
      rintro ⟨hle, _⟩
      omega
    have hfl : Hive.fetchLoop env fuel rs = some (none, rs) := by
      cases fuel <;> simp [Hive.fetchLoop, hcond]
    rw [Hive.Next, hfl]
    simp only []
    rw [if_neg (by omega), hdec]

/-- Witness for C6, the spec's own scenario: a 10-row BOOLEAN batch whose
null bitmap has bits 3 and 7 set (`[136, 0]`) reports rows 3 and 7 as null
and row 0 as its scalar value. -/
theorem C6_null_bitmap_decoding_witness :
    ((3 : ℕ) / 8 < ([136, 0] : List ℕ).length ∧
      Hive.specNullBit [136, 0] 3 = true ∧
      Hive.specNullBit [136, 0] 7 = true ∧
      Hive.specNullBit [136, 0] 0 = false) ∧
    Hive.value
        { boolVal := some ⟨[false, true, false, true, false, true, false,
            true, false, true], [136, 0]⟩ }
        ⟨"c", "BOOLEAN"⟩ 3 = .ok .null ∧
    Hive.value
        { boolVal := some ⟨[false, true, false, true, false, true, false,
            true, false, true], [136, 0]⟩ }
        ⟨"c", "BOOLEAN"⟩ 7 = .ok .null ∧
    Hive.value
        { boolVal := some ⟨[false, true, false, true, false, true, false,
            true, false, true], [136, 0]⟩ }
        ⟨"c", "BOOLEAN"⟩ 0 = .ok (.bool false) := by
  refine ⟨⟨by decide, by decide, by decide, by decide⟩, ?_, ?_, ?_⟩
  · exact ((C6_null_bitmap_decoding
      { boolVal := some ⟨[false, true, false, true, false, true, false,
            true, false, true], [136, 0]⟩ }
      ⟨"c", "BOOLEAN"⟩ 3 [136, 0]
      (by decide)).2.2.2.2.2.2.1
      [false, true, false, true, false, true, false, true, false, true]
      rfl rfl).1 (by decide)
  · exact ((C6_null_bitmap_decoding
      { boolVal := some ⟨[false, true, false, true, false, true, false,
            true, false, true], [136, 0]⟩ }
      ⟨"c", "BOOLEAN"⟩ 7 [136, 0]
      (by decide)).2.2.2.2.2.2.1
      [false, true, false, true, false, true, false, true, false, true]
      rfl rfl).1 (by decide)
  · have h0 := ((C6_null_bitmap_decoding
      { boolVal := some ⟨[false, true, false, true, false, true, false,
            true, false, true], [136, 0]⟩ }
      ⟨"c", "BOOLEAN"⟩ 0 [136, 0]
      (by decide)).2.2.2.2.2.2.1
      [false, true, false, true, false, true, false, true, false, true]
      rfl rfl).2 (by decide) (by decide)
    simpa using h0

/-- Claim C2 counterexample: `value` on a column whose declared database
type name is `REAL` does not decode from the 64-bit float vector — it
falls to the default arm and reads the string vector. Concretely, with
both vectors populated, row 0 comes back as the string `"1.5"`, not the
stored double. -/
theorem C2_real_reads_string_cex :
    Hive.value
        { stringVal := some ⟨["1.5"], [0]⟩,
          doubleVal := some ⟨[⟨4612811918334230528⟩], [0]⟩ }
        ⟨"c", "REAL"⟩ 0 ≠ .ok (.double ⟨4612811918334230528⟩) ∧
    Hive.value
        { stringVal := some ⟨["1.5"], [0]⟩,
          doubleVal := some ⟨[⟨4612811918334230528⟩], [0]⟩ }
        ⟨"c", "REAL"⟩ 0 = .ok (.str "1.5") := by
  refine ⟨by decide, by decide⟩

/-- Claim C2 as amended: for FLOAT and DOUBLE the value function decodes
the row from the 64-bit float vector, returning the stored double as-is
(no narrowing); REAL is not a recognized database type name and decodes
from the string vector through the default arm (the server reports REAL
columns as DOUBLE before they reach `value`). -/
theorem C2_float_double_use_doubleval (col : Hive.TColumn) (cd : Hive.ColDesc)
    (i : ℕ) :
    (∀ (vals : List Hive.Float64) (nulls : List ℕ),
      cd.databaseTypeName = "FLOAT" ∨ cd.databaseTypeName = "DOUBLE" →
      col.doubleVal = some ⟨vals, nulls⟩ → i / 8 < nulls.length →
      Hive.specNullBit nulls i = false → ∀ hi : i < vals.length,
      Hive.value col cd i = .ok (.double (vals.get ⟨i, hi⟩))) ∧
    (∀ (svals : List String) (snulls : List ℕ),
      cd.databaseTypeName = "REAL" →
      col.stringVal = some ⟨svals, snulls⟩ → i / 8 < snulls.length →
      Hive.specNullBit snulls i = false → ∀ hi : i < svals.length,
      Hive.value col cd i = .ok (.str (svals.get ⟨i, hi⟩))) := by
  constructor
  · intro vals nulls hname hcol h hbit hi
    have hv : Hive.value col cd i = Hive.decodeVec col.doubleVal i .double := by
      rcases hname with h1 | h1 <;> simp [Hive.value, h1]
    rw [hv, hcol]
    exact Hive.decodeVec_val vals nulls i _ h hbit hi
  · intro svals snulls hname hcol h hbit hi
    have hv : Hive.value col cd i = Hive.decodeVec col.stringVal i .str := by
      simp [Hive.value, hname]
    rw [hv, hcol]
    exact Hive.decodeVec_val svals snulls i _ h hbit hi

/-- Witness for the amended C2: a one-row DOUBLE column returns the stored
bit pattern unchanged, and a one-row REAL column returns the string. -/
theorem C2_float_double_use_doubleval_witness :
    (Hive.specNullBit [0] 0 = false ∧ (0 : ℕ) / 8 < ([0] : List ℕ).length) ∧
    Hive.value { doubleVal := some ⟨[⟨4612811918334230528⟩], [0]⟩ }
      ⟨"c", "DOUBLE"⟩ 0 = .ok (.double ⟨4612811918334230528⟩) ∧
    Hive.value { stringVal := some ⟨["1.5"], [0]⟩ } ⟨"c", "REAL"⟩ 0 =
      .ok (.str "1.5") := by
  refine ⟨⟨by decide, by decide⟩, ?_, ?_⟩
  · have hd := (C2_float_double_use_doubleval
      { doubleVal := some ⟨[⟨4612811918334230528⟩], [0]⟩ } ⟨"c", "DOUBLE"⟩ 0).1
      [⟨4612811918334230528⟩] [0] (Or.inr rfl) rfl (by decide) (by decide)
      (by decide)
    simpa using hd
  · have hs := (C2_float_double_use_doubleval
      { stringVal := some ⟨["1.5"], [0]⟩ } ⟨"c", "REAL"⟩ 0).2
      ["1.5"] [0] rfl rfl (by decide) (by decide) (by decide)
    simpa using hs

namespace Hive

theorem except_bind_error {ε α β : Type} (x : Except ε α) (f : α → Except ε β)
    (e : ε) (h : x >>= f = .error e) :
    x = .error e ∨ ∃ a, x = .ok a ∧ f a = .error e := by
  rcases x with e' | a
  · left
    have he : e' = e := by
      simpa only [Bind.bind, Except.bind, Except.error.injEq] using h
    rw [he]
  · right
    refine ⟨a, rfl, ?_⟩
    simpa only [Bind.bind, Except.bind] using h

theorem exceptMap_error {ε α β : Type} (x : Except ε α) (f : α → β) (e : ε)
    (h : Except.map f x = .error e) : x = .error e := by
  rcases x with e' | a
  · have he : e' = e := by
      simpa only [Except.map, Except.error.injEq] using h
    rw [he]
  · simp [Except.map] at h

theorem functorMap_error {ε α β : Type} (x : Except ε α) (f : α → β) (e : ε)
    (h : f <$> x = .error e) : x = .error e :=
  exceptMap_error x f e h

theorem deref_error {α : Type} (o : Option α) (e : GoErr)
    (h : deref o = .error e) : e = .panicked := by
  rcases o with _ | v
  · simpa [deref] using h.symm
  · simp [deref] at h

theorem goIndex_error {α : Type} (l : List α) (i : ℕ) (e : GoErr)
    (h : goIndex l i = .error e) : e = .panicked := by
  unfold goIndex at h
  rcases hx : l.get? i with _ | x <;> rw [hx] at h
  · simpa using h.symm
  · simp at h

theorem isSet_error (b : List ℕ) (i : ℕ) (e : GoErr)
    (h : isSet b i = .error e) : e = .panicked :=
  goIndex_error b (i / 8) e (exceptMap_error _ _ _ h)

theorem decodeVec_error {α : Type} (o : Option (TColumnVec α)) (i : ℕ)
    (mk : α → GoVal) (e : GoErr) (h : decodeVec o i mk = .error e) :
    e = .panicked := by
  rw [decodeVec] at h
  rcases except_bind_error _ _ _ h with h1 | ⟨v, _, h2⟩
  · exact deref_error o e h1
  rcases except_bind_error _ _ _ h2 with h3 | ⟨b, _, h4⟩
  · exact isSet_error _ _ _ h3
  rcases b with _ | _
  · simp only [Bool.false_eq_true, if_false] at h4
    exact goIndex_error _ _ _ (functorMap_error _ _ _ h4)
  · simp [pure, Except.pure] at h4

theorem timeParse_error (s : String) (e : GoErr)
    (h : timeParse s = .error e) : e = .parseFailed s := by
  unfold timeParse at h
  rcases hv : validTimestamp s <;> rw [hv] at h
  · simpa using h.symm
  · simp at h

theorem decodeTs_error (o : Option (TColumnVec String)) (i : ℕ) (e : GoErr)
    (h : decodeTs o i = .error e) :
    e = .panicked ∨ ∃ s, e = .parseFailed s := by
  rw [decodeTs] at h
  rcases except_bind_error _ _ _ h with h1 | ⟨v, _, h2⟩
  · exact Or.inl (deref_error o e h1)
  rcases except_bind_error _ _ _ h2 with h3 | ⟨b, _, h4⟩
  · exact Or.inl (isSet_error _ _ _ h3)
  rcases b with _ | _
  · simp only [Bool.false_eq_true, if_false] at h4
    rcases except_bind_error _ _ _ h4 with h5 | ⟨x, _, h6⟩
    · exact Or.inl (goIndex_error _ _ _ h5)
    · exact Or.inr ⟨x, timeParse_error x e h6⟩
  · simp [pure, Except.pure] at h4

theorem value_error (col : TColumn) (cd : ColDesc) (i : ℕ) (e : GoErr)
    (h : value col cd i = .error e) :
    e = .panicked ∨ ∃ s, e = .parseFailed s := by
  rw [value] at h
  split at h
  all_goals first
    | exact Or.inl (decodeVec_error _ _ _ _ h)
    | exact decodeTs_error _ _ _ h

theorem decodeCells_error (rs : ResultSet) (count : ℕ) :
    ∀ (i : ℕ) (e : GoErr), decodeCells rs count i = .error e →
      e = .panicked ∨ ∃ s, e = .parseFailed s := by
  induction count with
  | zero =>
    intro i e h
    simp [decodeCells] at h
  | succ c ih =>
    intro i e h
    rw [decodeCells] at h
    rcases except_bind_error _ _ _ h with h1 | ⟨r, _, h2⟩
    · exact Or.inl (deref_error _ _ h1)
    rcases except_bind_error _ _ _ h2 with h3 | ⟨col, _, h4⟩
    · exact Or.inl (goIndex_error _ _ _ h3)
    rcases except_bind_error _ _ _ h4 with h5 | ⟨cd, _, h6⟩
    · exact Or.inl (goIndex_error _ _ _ h5)
    rcases except_bind_error _ _ _ h6 with h7 | ⟨v, _, h8⟩
    · exact value_error _ _ _ _ h7
    rcases except_bind_error _ _ _ h8 with h9 | ⟨rest, _, h10⟩
    · exact ih _ _ h9
    · simp [pure, Except.pure] at h10

theorem decodeRow_ne_eof (rs : ResultSet) (n : ℕ) :
    decodeRow rs n ≠ .error .eof := by
  intro h
  rcases decodeCells_error rs n 0 .eof h with h1 | ⟨s, h1⟩ <;> cases h1

end Hive

namespace Hive

/-- The fetch loop only hands control back without an error when its
guard `idx >= length && more` has become false. -/
theorem fetchLoop_none_exit (env : FetchEnv) (fuel : ℕ) :
    ∀ rs r : ResultSet, fetchLoop env fuel rs = some (none, r) →
      ¬ (r.length ≤ r.idx ∧ r.more = true) := by
  induction fuel with
  | zero =>
    intro rs r h
    rw [fetchLoop] at h
    by_cases hc : rs.length ≤ rs.idx ∧ rs.more = true
    · rw [if_pos hc] at h
      cases h
    · rw [if_neg hc] at h
      cases h
      exact hc
  | succ f ih =>
    intro rs r h
    rw [fetchLoop] at h
    by_cases hc : rs.length ≤ rs.idx ∧ rs.more = true
    · rw [if_pos hc] at h
      rcases hf : env.fetches rs.fetchCount with e | resp <;> rw [hf] at h
      · simp at h
      · exact ih _ _ h
    · rw [if_neg hc] at h
      cases h
      exact hc

/-- An error coming out of the fetch loop is an error some fetch call
returned. -/
theorem fetchLoop_error_src (env : FetchEnv) (fuel : ℕ) :
    ∀ (rs : ResultSet) (e : GoErr) (r : ResultSet),
      fetchLoop env fuel rs = some (some e, r) →
      ∃ k, env.fetches k = .error e := by
  induction fuel with
  | zero =>
    intro rs e r h
    rw [fetchLoop] at h
    by_cases hc : rs.length ≤ rs.idx ∧ rs.more = true
    · rw [if_pos hc] at h
      cases h
    · rw [if_neg hc] at h
      simp at h
  | succ f ih =>
    intro rs e r h
    rw [fetchLoop] at h
    by_cases hc : rs.length ≤ rs.idx ∧ rs.more = true
    · rw [if_pos hc] at h
      rcases hf : env.fetches rs.fetchCount with e' | resp <;> rw [hf] at h
      · simp at h
        exact ⟨rs.fetchCount, by rw [hf, h.1]⟩
      · exact ih _ _ _ h
    · rw [if_neg hc] at h
      simp at h

end Hive

/-- Claim C5: a fetch response with `hasMoreRows = true` and a zero-length
batch does not end iteration — `Next` simply fetches again from the
installed empty batch; `Next` returns the end-of-data signal `io.EOF`
exactly when the current batch is exhausted (`idx >= length`) and the last
response reported `hasMoreRows = false` (provided the fetch closure itself
never surfaces a transport `io.EOF`); and in that ended state `Next`
leaves the cursor unchanged, so no further rows are ever produced. -/
theorem C5_zero_row_batches_and_eof (n : ℕ) :
    (∀ (env : Hive.FetchEnv) (rs : Hive.ResultSet) (fuel : ℕ)
        (resp : Hive.TFetchResultsResp),
      rs.length ≤ rs.idx → rs.more = true →
      env.fetches rs.fetchCount = .ok resp → resp.hasMoreRows = true →
      Hive.length resp.results = 0 →
      Hive.Next env rs n (fuel + 1) =
        Hive.Next env
          { rs with
            result := resp.results
            more := true
            idx := 0
            length := 0
            fetchCount := rs.fetchCount + 1 } n fuel) ∧
    (∀ (env : Hive.FetchEnv) (rs : Hive.ResultSet) (fuel : ℕ)
        (r : Hive.ResultSet),
      (∀ k, env.fetches k ≠ .error .eof) →
      Hive.Next env rs n fuel = some (.error .eof, r) →
      r.length ≤ r.idx ∧ r.more = false) ∧
    (∀ (env : Hive.FetchEnv) (rs : Hive.ResultSet) (fuel : ℕ),
      rs.length ≤ rs.idx → rs.more = false →
      Hive.Next env rs n fuel = some (.error .eof, rs)) := by
  refine ⟨?_, ?_, ?_⟩
  · intro env rs fuel resp hle hmore hfetch hmr hlen0
    have hfl : Hive.fetchLoop env (fuel + 1) rs =
        Hive.fetchLoop env fuel
          { rs with
            result := resp.results
            more := true
            idx := 0
            length := 0
            fetchCount := rs.fetchCount + 1 } := by
      rw [Hive.fetchLoop, if_pos ⟨hle, hmore⟩, hfetch]
      simp only []
      rw [hmr, hlen0]
    rw [Hive.Next, Hive.Next, hfl]
  · intro env rs fuel r hnoeof h
    rw [Hive.Next] at h
    rcases hfl : Hive.fetchLoop env fuel rs with _ | ⟨oe, rs1⟩ <;>
      rw [hfl] at h
    · cases h
    rcases oe with _ | e
    · simp only [] at h
      by_cases hle : rs1.length ≤ rs1.idx
      · rw [if_pos hle] at h
        cases h
        refine ⟨hle, ?_⟩
        have hexit := Hive.fetchLoop_none_exit env fuel rs r hfl
        rcases hm : r.more with _ | _
        · rfl
        · exact absurd ⟨hle, hm⟩ hexit
      · rw [if_neg hle] at h
        rcases hdec : Hive.decodeRow rs1 n with e' | vals <;> rw [hdec] at h
        · simp at h
          exact absurd (hdec.trans (by rw [h.1])) (Hive.decodeRow_ne_eof rs1 n)
        · simp at h
    · simp only [] at h
      simp at h
      obtain ⟨k, hk⟩ := Hive.fetchLoop_error_src env fuel rs e rs1 hfl
      rw [h.1] at hk
      exact absurd hk (hnoeof k)
  · intro env rs fuel hle hmore
    have hc : ¬ (rs.length ≤ rs.idx ∧ rs.more = true) := by
      rintro ⟨_, hm⟩
      rw [hmore] at hm
      cases hm
    have hfl : Hive.fetchLoop env fuel rs = some (none, rs) := by
      cases fuel <;> simp [Hive.fetchLoop, hc]
    rw [Hive.Next, hfl]
    simp only []
    rw [if_pos hle]

/-- Witness for C5: a `hasMoreRows = true` empty response makes `Next`
fetch again (here with the fetch counter advanced), and an exhausted
cursor with `more = false` yields `io.EOF` with the cursor unchanged. -/
theorem C5_zero_row_batches_and_eof_witness :
    (((⟨0, 0, 0, none, true, []⟩ : Hive.ResultSet).length ≤
        (⟨0, 0, 0, none, true, []⟩ : Hive.ResultSet).idx ∧
      Hive.length (none : Option Hive.TRowSet) = 0) ∧
      (⟨fun k => if k = 0 then .ok ⟨none, true⟩ else
        .ok ⟨none, false⟩⟩ : Hive.FetchEnv).fetches 0 =
        .ok ⟨none, true⟩) ∧
    Hive.Next ⟨fun k => if k = 0 then .ok ⟨none, true⟩ else
        .ok ⟨none, false⟩⟩ ⟨0, 0, 0, none, true, []⟩ 0 2 =
      Hive.Next ⟨fun k => if k = 0 then .ok ⟨none, true⟩ else
        .ok ⟨none, false⟩⟩ ⟨0, 0, 1, none, true, []⟩ 0 1 ∧
    Hive.Next ⟨fun k => if k = 0 then .ok ⟨none, true⟩ else
        .ok ⟨none, false⟩⟩ ⟨0, 0, 0, none, false, []⟩ 0 1 =
      some (.error .eof, ⟨0, 0, 0, none, false, []⟩) := by
  refine ⟨⟨⟨by decide, by decide⟩, by decide⟩, ?_, ?_⟩
  · exact (C5_zero_row_batches_and_eof 0).1
      ⟨fun k => if k = 0 then .ok ⟨none, true⟩ else .ok ⟨none, false⟩⟩
      ⟨0, 0, 0, none, true, []⟩ 1 ⟨none, true⟩
      (by decide) rfl rfl rfl rfl
  · exact (C5_zero_row_batches_and_eof 0).2.2
      ⟨fun k => if k = 0 then .ok ⟨none, true⟩ else .ok ⟨none, false⟩⟩
      ⟨0, 0, 0, none, false, []⟩ 1 (by decide) rfl

/-- Claim C10: when the current batch is not exhausted (`idx < length`)
and `Next` returns an error — which in that configuration can only come
from decoding the current row — the cursor state is unchanged, so the next
`Next` call attempts the same row again. -/
theorem C10_decode_error_preserves_cursor (env : Hive.FetchEnv)
    (rs r : Hive.ResultSet) (n fuel : ℕ) (e : GoErr)
    (hidx : rs.idx < rs.length)
    (h : Hive.Next env rs n fuel = some (.error e, r)) : r = rs := by
  have hc : ¬ (rs.length ≤ rs.idx ∧ rs.more = true) := by
    rintro ⟨hle, _⟩
    omega
  have hfl : Hive.fetchLoop env fuel rs = some (none, rs) := by
    cases fuel <;> simp [Hive.fetchLoop, hc]
  rw [Hive.Next, hfl] at h
  simp only [] at h
  rw [if_neg (by omega)] at h
  rcases hdec : Hive.decodeRow rs n with e' | vals <;> rw [hdec] at h
  · simp at h
    exact h.2.symm
  · simp at h

/-- A one-row, one-column TIMESTAMP cursor whose stored text does not
parse — scaffolding for the C10 witness. -/
def c10cursor : Hive.ResultSet :=
  ⟨0, 1, 0, some ⟨[{ stringVal := some ⟨["notatime"], [0]⟩ }]⟩, false,
    [⟨"t", "TIMESTAMP"⟩]⟩

/-- Witness for C10: decoding the malformed timestamp fails and the
cursor comes back exactly as it went in. -/
theorem C10_decode_error_preserves_cursor_witness :
    (c10cursor.idx < c10cursor.length ∧
      Hive.Next ⟨fun _ => .error (.other "unused")⟩ c10cursor 1 1 =
        some (.error (.parseFailed "notatime"), c10cursor)) ∧
    c10cursor = c10cursor := by
  refine ⟨⟨by decide, by decide⟩, ?_⟩
  exact C10_decode_error_preserves_cursor ⟨fun _ => .error (.other "unused")⟩
    c10cursor c10cursor 1 1 (.parseFailed "notatime") (by decide) (by decide)

namespace Hive

theorem nextDuration_eq_min (d : ℤ) :
    nextDuration d = min (2 * d) maxBackoff := by
  rw [nextDuration]
  split <;> omega

theorem nextDuration_min_pow (n : ℕ) :
    nextDuration (min (initialBackoff * 2 ^ n) maxBackoff) =
      min (initialBackoff * 2 ^ (n + 1)) maxBackoff := by
  rw [nextDuration_eq_min]
  have hpow : (2:ℤ) ^ (n + 1) = 2 ^ n * 2 := pow_succ 2 n
  have hpos : (0:ℤ) < initialBackoff * 2 ^ n := by
    have : (0:ℤ) < 2 ^ n := pow_pos (by norm_num) n
    rw [initialBackoff]
    positivity
  rcases le_or_lt (initialBackoff * 2 ^ n) maxBackoff with h | h
  · rw [min_eq_left h]
    congr 1
    rw [hpow]
    ring
  · rw [min_eq_right h.le, min_eq_right (by rw [maxBackoff]; norm_num),
      min_eq_right (by rw [hpow]; nlinarith)]

theorem wtfLoop_len_mono (env : WtfEnv) (fuel : ℕ) :
    ∀ (k : ℕ) (dur : ℤ) (st : ℕ) (err : Option GoErr) (sleeps L : List ℤ)
      (r : Option GoErr),
      wtfLoop env fuel k dur st err sleeps = some (r, L) →
      sleeps.length ≤ L.length := by
  induction fuel with
  | zero =>
    intro k dur st err sleeps L r h
    rw [wtfLoop] at h
    by_cases hc : err = none ∧ st ≠ finishedState
    · rw [if_pos hc] at h
      cases h
    · rw [if_neg hc] at h
      cases h
      exact le_refl _
  | succ f ih =>
    intro k dur st err sleeps L r h
    rw [wtfLoop] at h
    by_cases hc : err = none ∧ st ≠ finishedState
    · rw [if_pos hc] at h
      have := ih _ _ _ _ _ _ _ h
      rw [List.length_append] at this
      omega
    · rw [if_neg hc] at h
      cases h
      exact le_refl _

/-- Backoff invariant of the polling loop: if the sleeps recorded so far
follow the doubling-and-clamping schedule and the pending duration is the
next scheduled value, every sleep in the final list follows the
schedule. -/
theorem wtfLoop_sleeps (env : WtfEnv) (fuel : ℕ) :
    ∀ (k : ℕ) (dur : ℤ) (st : ℕ) (err : Option GoErr) (sleeps L : List ℤ)
      (r : Option GoErr),
      wtfLoop env fuel k dur st err sleeps = some (r, L) →
      dur = min (initialBackoff * 2 ^ sleeps.length) maxBackoff →
      (∀ j, j < sleeps.length →
        sleeps.get? j = some (min (initialBackoff * 2 ^ j) maxBackoff)) →
      ∀ j, j < L.length →
        L.get? j = some (min (initialBackoff * 2 ^ j) maxBackoff) := by
  induction fuel with
  | zero =>
    intro k dur st err sleeps L r h hdur hs
    rw [wtfLoop] at h
    by_cases hc : err = none ∧ st ≠ finishedState
    · rw [if_pos hc] at h
      cases h
    · rw [if_neg hc] at h
      cases h
      exact hs
  | succ f ih =>
    intro k dur st err sleeps L r h hdur hs
    rw [wtfLoop] at h
    by_cases hc : err = none ∧ st ≠ finishedState
    · rw [if_pos hc] at h
      refine ih _ _ _ _ _ _ _ h ?_ ?_
      · rw [List.length_append, List.length_singleton, hdur,
          nextDuration_min_pow]
      · intro j hj
        rw [List.length_append, List.length_singleton] at hj
        rcases Nat.lt_or_ge j sleeps.length with hlt | hge
        · rw [List.get?_append hlt]
          exact hs j hlt
        · have hje : j = sleeps.length := by omega
          subst hje
          rw [List.get?_append_right (le_refl _)]
          simp [hdur]
    · rw [if_neg hc] at h
      cases h
      exact hs

/-- Return invariant of the polling loop: a result reached after at least
one loop iteration is the coalescing of the last check's RPC error with
the context error observed right after it; a result with no iterations is
the entry error unchanged. -/
theorem wtfLoop_coalesce (env : WtfEnv) (fuel : ℕ) :
    ∀ (k : ℕ) (dur : ℤ) (st : ℕ) (err : Option GoErr) (sleeps L : List ℤ)
      (r : Option GoErr),
      wtfLoop env fuel k dur st err sleeps = some (r, L) →
      k = sleeps.length + 1 →
      (0 < sleeps.length →
        err = coalesceErr (errOf (env.checks sleeps.length))
          (env.ctxErr sleeps.length)) →
      (L = sleeps → r = err) ∧
      (0 < L.length →
        r = coalesceErr (errOf (env.checks L.length))
          (env.ctxErr L.length)) := by
  induction fuel with
  | zero =>
    intro k dur st err sleeps L r h hk hentry
    rw [wtfLoop] at h
    by_cases hc : err = none ∧ st ≠ finishedState
    · rw [if_pos hc] at h
      cases h
    · rw [if_neg hc] at h
      cases h
      exact ⟨fun _ => rfl, fun hpos => hentry hpos⟩
  | succ f ih =>
    intro k dur st err sleeps L r h hk hentry
    rw [wtfLoop] at h
    by_cases hc : err = none ∧ st ≠ finishedState
    · rw [if_pos hc] at h
      have hmono := wtfLoop_len_mono env f _ _ _ _ _ _ _ h
      rw [List.length_append, List.length_singleton] at hmono
      have hrec := ih _ _ _ _ _ _ _ h
        (by rw [List.length_append, List.length_singleton, hk])
        (by
          intro _
          rw [List.length_append, List.length_singleton, ← hk])
      refine ⟨?_, fun hpos => hrec.2 hpos⟩
      intro hLs
      exfalso
      have := congrArg List.length hLs
      omega
    · rw [if_neg hc] at h
      cases h
      exact ⟨fun _ => rfl, fun hpos => hentry hpos⟩

end Hive

/-- Claim C7: in `WaitToFinish` the first status check runs before any
sleep (a first check that already reports FINISHED returns with no sleeps
recorded), `nextDuration d = min(2*d, 1s)` for every duration, and the
`k`-th recorded sleep (0-based index `j = k-1`) lasts
`min(100ms * 2^j, 1s)` — in particular never more than the 1-second
ceiling. -/
theorem C7_backoff_schedule :
    (∀ d : ℤ, Hive.nextDuration d = min (2 * d) Hive.maxBackoff) ∧
    (∀ (env : Hive.WtfEnv) (fuel : ℕ) (r : Option GoErr) (L : List ℤ),
      Hive.WaitToFinish env fuel = some (r, L) →
      ∀ j, j < L.length →
        L.get? j =
          some (min (Hive.initialBackoff * 2 ^ j) Hive.maxBackoff) ∧
        min (Hive.initialBackoff * 2 ^ j) Hive.maxBackoff ≤
          Hive.maxBackoff) ∧
    (∀ (env : Hive.WtfEnv) (fuel : ℕ),
      Hive.errOf (env.checks 0) = none →
      Hive.stOf (env.checks 0) = Hive.finishedState →
      Hive.WaitToFinish env fuel = some (none, [])) := by
  refine ⟨Hive.nextDuration_eq_min, ?_, ?_⟩
  · intro env fuel r L h j hj
    refine ⟨?_, min_le_right _ _⟩
    exact Hive.wtfLoop_sleeps env fuel 1 Hive.initialBackoff
      (Hive.stOf (env.checks 0)) (Hive.errOf (env.checks 0)) [] L r h
      (by simp [Hive.initialBackoff, Hive.maxBackoff])
      (by intro j hj; cases hj) j hj
  · intro env fuel h1 h2
    have hc : ¬ (Hive.errOf (env.checks 0) = none ∧
        Hive.stOf (env.checks 0) ≠ Hive.finishedState) := by
      rintro ⟨_, hne⟩
      exact hne h2
    rw [Hive.WaitToFinish]
    cases fuel <;> rw [Hive.wtfLoop, if_neg hc, h1]

/-- Witness for C7: three polls (two sleeps) against a server that reports
running, running, finished — the sleeps are 100ms then 200ms, and the
clamp law evaluated at 1s stays at the 1s ceiling. -/
theorem C7_backoff_schedule_witness :
    (Hive.WaitToFinish
        ⟨fun k => if k ≤ 1 then .ok 1 else .ok 2, fun _ => none⟩ 3 =
      some (none, [100000000, 200000000]) ∧ (1 : ℕ) < 2) ∧
    ([100000000, 200000000] : List ℤ).get? 1 =
      some (min (Hive.initialBackoff * 2 ^ 1) Hive.maxBackoff) ∧
    Hive.nextDuration 1000000000 = min (2 * 1000000000) Hive.maxBackoff := by
  refine ⟨⟨by decide, by decide⟩, ?_, ?_⟩
  · exact (C7_backoff_schedule.2.1
      ⟨fun k => if k ≤ 1 then .ok 1 else .ok 2, fun _ => none⟩ 3 none
      [100000000, 200000000] (by decide) 1 (by decide)).1
  · exact C7_backoff_schedule.1 1000000000

/-- Claim C3 counterexample: with the context already done (`ctx.Err()`
reporting `context.Canceled` throughout) and the very first status check
returning FINISHED with no RPC error, `WaitToFinish` returns nil — not the
context's error — because the source coalesces `ctx.Err()` only after the
checks made inside the loop, never after the initial one. -/
theorem C3_first_check_skips_ctx_cex :
    Hive.WaitToFinish ⟨fun _ => .ok 2, fun _ => some .ctxCanceled⟩ 1 =
      some (none, []) ∧
    (⟨fun _ => .ok 2, fun _ => some .ctxCanceled⟩ : Hive.WtfEnv).ctxErr 0 =
      some .ctxCanceled ∧
    (⟨fun _ => .ok 2, fun _ => some .ctxCanceled⟩ : Hive.WtfEnv).checks 0 =
      .ok Hive.finishedState ∧
    (none : Option GoErr) ≠ some .ctxCanceled := by
  exact ⟨rfl, rfl, rfl, by decide⟩

/-- Claim C3 as amended: after every status-check RPC made inside the
polling loop — that is, every check except the very first — an RPC that
returned no error while the context is already done makes `WaitToFinish`
return the context's error; but a call that never enters the loop (the
first check already errored or reported FINISHED) returns the first
check's RPC error unchanged, nil included, even when the context is
done. -/
theorem C3_ctx_coalesced_after_loop_checks (env : Hive.WtfEnv) (fuel : ℕ)
    (r : Option GoErr) (L : List ℤ)
    (h : Hive.WaitToFinish env fuel = some (r, L)) :
    (0 < L.length → Hive.errOf (env.checks L.length) = none →
      r = env.ctxErr L.length) ∧
    (L = [] → r = Hive.errOf (env.checks 0)) := by
  have hco := Hive.wtfLoop_coalesce env fuel 1 Hive.initialBackoff
    (Hive.stOf (env.checks 0)) (Hive.errOf (env.checks 0)) [] L r h rfl
    (by intro hpos; cases hpos)
  constructor
  · intro hpos herr
    have := hco.2 hpos
    rw [herr] at this
    exact this
  · intro hL
    exact hco.1 hL

/-- Witness for the amended C3: first check running, second check reports
FINISHED with no RPC error while the context is already cancelled — the
returned error is the context's. -/
theorem C3_ctx_coalesced_after_loop_checks_witness :
    (Hive.WaitToFinish
        ⟨fun k => if k = 0 then .ok 1 else .ok 2,
          fun _ => some .ctxCanceled⟩ 2 =
      some (some .ctxCanceled, [100000000]) ∧
      (0 : ℕ) < ([100000000] : List ℤ).length ∧
      Hive.errOf ((⟨fun k => if k = 0 then .ok 1 else .ok 2,
        fun _ => some .ctxCanceled⟩ : Hive.WtfEnv).checks 1) = none) ∧
    (some GoErr.ctxCanceled : Option GoErr) =
      (⟨fun k => if k = 0 then .ok 1 else .ok 2,
        fun _ => some .ctxCanceled⟩ : Hive.WtfEnv).ctxErr 1 := by
  refine ⟨⟨by decide, by decide, by decide⟩, ?_⟩
  exact (C3_ctx_coalesced_after_loop_checks
    ⟨fun k => if k = 0 then .ok 1 else .ok 2, fun _ => some .ctxCanceled⟩ 2
    (some .ctxCanceled) [100000000] (by decide)).1 (by decide) (by decide)
